import Mathlib

/-!
Verification of the `BLE_Value` attribute transaction engine
(`src/ble_value.cpp` / `src/ble_value.hpp`) and of the completion
correlator interface (`Utilities::Notification_Manager`) of the
esp32-ble-redux repository, as a shallow embedding in Lean 4.

Bytes are modelled as natural numbers, byte buffers (`std::vector<uint8_t>`)
as lists, and the per-connection `std::unordered_map`s as functions from
connection identifiers to `Option`-valued entries.  `size_t` arithmetic is
modelled explicitly modulo `2 ^ 64`.
-/

namespace BLERedux

/-- A byte buffer: the contents of a `std::vector<uint8_t>`. -/
abbrev Bytes := List Nat

/-- Modulus of `size_t` arithmetic (64-bit platform): `2 ^ 64`. -/
def SIZE_T_MOD : Nat := 18446744073709551616

/-- Insert or replace the entry for key `k` in a map, as
`std::unordered_map::insert_or_assign` (and `operator[]` assignment) does. -/
def mapInsert {α : Type} (m : Nat → Option α) (k : Nat) (v : α) : Nat → Option α :=
  fun q => if q = k then some v else m q

/-- Remove the entry for key `k` from a map, as `std::unordered_map::erase` does. -/
def mapErase {α : Type} (m : Nat → Option α) (k : Nat) : Nat → Option α :=
  fun q => if q = k then none else m q

@[simp] theorem mapInsert_self {α : Type} (m : Nat → Option α) (k : Nat) (v : α) :
    mapInsert m k v k = some v := by
  simp [mapInsert]

theorem mapInsert_other {α : Type} (m : Nat → Option α) (k q : Nat) (v : α) (h : q ≠ k) :
    mapInsert m k v q = m q := by
  simp [mapInsert, h]

@[simp] theorem mapErase_self {α : Type} (m : Nat → Option α) (k : Nat) :
    mapErase m k k = none := by
  simp [mapErase]

theorem mapErase_other {α : Type} (m : Nat → Option α) (k q : Nat) (h : q ≠ k) :
    mapErase m k q = m q := by
  simp [mapErase, h]

/-- `BLE_Value::transaction_read_t` (src/ble_value.hpp): an immutable snapshot
of the attribute value plus a cursor offset into it. -/
structure TransactionRead where
  value : Bytes
  offset : Nat
deriving DecidableEq, Repr

/-- The state of one `BLE_Value` object (src/ble_value.hpp): the committed
attribute value plus the per-connection write buffers and read transactions. -/
structure BLE_Value where
  m_value : Bytes
  m_transactions_write : Nat → Option Bytes
  m_transactions_read : Nat → Option TransactionRead

/-- A freshly constructed `BLE_Value`: empty value, no transactions. -/
def BLE_Value.init : BLE_Value :=
  ⟨[], fun _ => none, fun _ => none⟩

/-- `BLE_Value::to_raw` (src/ble_value.cpp, lines 26-30). -/
def BLE_Value.to_raw (s : BLE_Value) : Bytes :=
  s.m_value

/-- `BLE_Value::transaction_write_start` (src/ble_value.cpp, lines 33-37):
`insert_or_assign` an empty accumulation buffer for the connection. -/
def BLE_Value.transaction_write_start (s : BLE_Value) (connection_id : Nat) : BLE_Value :=
  { s with m_transactions_write := mapInsert s.m_transactions_write connection_id [] }

/-- `BLE_Value::transaction_write_add` (src/ble_value.cpp, lines 39-48):
if no buffer is open for the connection return `false`; otherwise append
`data` to the open buffer and return `true`. -/
def BLE_Value.transaction_write_add (s : BLE_Value) (connection_id : Nat) (data : Bytes) :
    Bool × BLE_Value :=
  match s.m_transactions_write connection_id with
  | none => (false, s)
  | some buf =>
    (true, { s with
      m_transactions_write := mapInsert s.m_transactions_write connection_id (buf ++ data) })

/-- `BLE_Value::transaction_write_commit` (src/ble_value.cpp, lines 50-60):
if no buffer is open return `false`; otherwise replace `m_value` with the
accumulated buffer, erase the buffer, and return `true`. -/
def BLE_Value.transaction_write_commit (s : BLE_Value) (connection_id : Nat) :
    Bool × BLE_Value :=
  match s.m_transactions_write connection_id with
  | none => (false, s)
  | some buf =>
    (true, { s with
      m_value := buf
      m_transactions_write := mapErase s.m_transactions_write connection_id })

/-- `BLE_Value::transaction_write_ongoing` (src/ble_value.cpp, lines 62-66). -/
def BLE_Value.transaction_write_ongoing (s : BLE_Value) (connection_id : Nat) : Bool :=
  (s.m_transactions_write connection_id).isSome

/-- `BLE_Value::transaction_read_start` (src/ble_value.cpp, lines 69-77):
`insert_or_assign` a transaction snapshotting the current `m_value`
with the cursor at offset `0`. -/
def BLE_Value.transaction_read_start (s : BLE_Value) (connection_id : Nat) : BLE_Value :=
  { s with m_transactions_read := mapInsert s.m_transactions_read connection_id ⟨s.m_value, 0⟩ }

/-- `BLE_Value::transaction_read_advance` (src/ble_value.cpp, lines 79-96):
if no read transaction is open return the empty buffer; otherwise take
`length = min max_length (value.size() - offset)` (both operands `size_t`,
so the subtraction wraps modulo `2 ^ 64`), return the empty buffer if
`length = 0`, and otherwise return the `length` bytes starting at the
cursor and advance the cursor by `length`. -/
def BLE_Value.transaction_read_advance (s : BLE_Value) (connection_id : Nat)
    (max_length : Nat) : Bytes × BLE_Value :=
  match s.m_transactions_read connection_id with
  | none => ([], s)
  | some t =>
    let length := min max_length ((SIZE_T_MOD + t.value.length - t.offset) % SIZE_T_MOD)
    if length = 0 then ([], s)
    else
      ((t.value.drop t.offset).take length,
       { s with m_transactions_read := (mapInsert s.m_transactions_read connection_id
           ⟨t.value, (t.offset + length) % SIZE_T_MOD⟩) })

/-- `BLE_Value::transaction_read_abort` (src/ble_value.cpp, lines 98-105):
erase the read transaction if present; a no-op otherwise. -/
def BLE_Value.transaction_read_abort (s : BLE_Value) (connection_id : Nat) : BLE_Value :=
  match s.m_transactions_read connection_id with
  | none => s
  | some _ => { s with m_transactions_read := mapErase s.m_transactions_read connection_id }

/-- `BLE_Value::transaction_write_abort` (src/ble_value.cpp, lines 107-114):
erase the write buffer if present; a no-op otherwise. -/
def BLE_Value.transaction_write_abort (s : BLE_Value) (connection_id : Nat) : BLE_Value :=
  match s.m_transactions_write connection_id with
  | none => s
  | some _ => { s with m_transactions_write := mapErase s.m_transactions_write connection_id }

/-- One invocation of an engine operation, tagged with its connection id. -/
inductive EngineOp where
  | writeStart (cid : Nat)
  | writeAdd (cid : Nat) (data : Bytes)
  | writeCommit (cid : Nat)
  | writeAbort (cid : Nat)
  | writeOngoing (cid : Nat)
  | readStart (cid : Nat)
  | readAdvance (cid : Nat) (maxLength : Nat)
  | readAbort (cid : Nat)

/-- The connection identifier an engine operation is invoked with. -/
def EngineOp.conn : EngineOp → Nat
  | .writeStart c => c
  | .writeAdd c _ => c
  | .writeCommit c => c
  | .writeAbort c => c
  | .writeOngoing c => c
  | .readStart c => c
  | .readAdvance c _ => c
  | .readAbort c => c

/-- State transition of one engine operation (`transaction_write_ongoing` is a
pure query and leaves the state unchanged). -/
def BLE_Value.step (s : BLE_Value) : EngineOp → BLE_Value
  | .writeStart c => s.transaction_write_start c
  | .writeAdd c d => (s.transaction_write_add c d).2
  | .writeCommit c => (s.transaction_write_commit c).2
  | .writeAbort c => s.transaction_write_abort c
  | .writeOngoing _ => s
  | .readStart c => s.transaction_read_start c
  | .readAdvance c n => (s.transaction_read_advance c n).2
  | .readAbort c => s.transaction_read_abort c

/-- The state reached by a sequence of engine operations from a fresh object. -/
def BLE_Value.run (ops : List EngineOp) : BLE_Value :=
  ops.foldl BLE_Value.step BLE_Value.init

/-- Modelled from the spec: the completion correlator
(`Utilities::Notification_Manager`, declared in `utilities.hpp`, which is not
among the sources here; only its callers in `ble_server.cpp`, `ble_profile.cpp`
and `ble/ble_service.cpp` are).  The registry maps a (key, operation-tag) pair
to its at-most-one PendingWait; a registered PendingWait holds a one-shot
result slot, `none` while undelivered and `some b` once a matching notify has
delivered `b`. -/
structure Notification_Manager where
  registry : Nat → Nat → Option (Option Bool)

/-- A correlator with no pending waits. -/
def Notification_Manager.empty : Notification_Manager :=
  ⟨fun _ _ => none⟩

/-- Modelled from the spec: `notify(key, operation, success)` looks up the
PendingWait for (key, operation); if one is pending and undelivered, it
delivers `success` to its result slot; otherwise the notification is dropped
without effect. -/
def Notification_Manager.notify (m : Notification_Manager) (key oper : Nat)
    (success : Bool) : Notification_Manager :=
  match m.registry key oper with
  | some none =>
    ⟨fun k o => if k = key ∧ o = oper then some (some success) else m.registry k o⟩
  | _ => m

/-- Modelled from the spec: `wait(key, operation, action)`.  If a PendingWait
for (key, operation) is already outstanding, fail fast: return empty without
touching the registry.  Otherwise register a PendingWait first, then run
`action` (which may itself call `notify` on the correlator and reports
acceptance of the underlying request).  On rejection the registration is
cancelled and `false` returned; otherwise the caller obtains the result
delivered to the slot during `action` if any, or times out with an empty
result (in this sequential model no delivery can arrive after `action`
returns), the registration being removed in every case. -/
def Notification_Manager.wait (m : Notification_Manager) (key oper : Nat)
    (action : Notification_Manager → Bool × Notification_Manager) :
    Option Bool × Notification_Manager :=
  if (m.registry key oper).isSome then (none, m)
  else
    let registered : Notification_Manager :=
      ⟨fun k o => if k = key ∧ o = oper then some none else m.registry k o⟩
    let res := action registered
    let removed : Notification_Manager :=
      ⟨fun k o => if k = key ∧ o = oper then none else res.2.registry k o⟩
    if res.1 = false then (some false, removed)
    else
      match res.2.registry key oper with
      | some (some b) => (some b, removed)
      | _ => (none, removed)

/-! ### Helper lemmas about the transaction engine -/

theorem size_t_sub_eq (a b : Nat) (hba : b ≤ a) (ha : a < SIZE_T_MOD) :
    (SIZE_T_MOD + a - b) % SIZE_T_MOD = a - b := by
  have h1 : SIZE_T_MOD + a - b = SIZE_T_MOD + (a - b) := by omega
  rw [h1, Nat.add_mod_left]
  exact Nat.mod_eq_of_lt (by omega)

theorem size_t_sub_le (a b : Nat) (hba : b ≤ a) :
    (SIZE_T_MOD + a - b) % SIZE_T_MOD ≤ a - b := by
  have h1 : SIZE_T_MOD + a - b = SIZE_T_MOD + (a - b) := by omega
  rw [h1, Nat.add_mod_left]
  exact Nat.mod_le _ _

theorem transaction_write_start_read_frame (s : BLE_Value) (c : Nat) :
    (s.transaction_write_start c).m_transactions_read = s.m_transactions_read := rfl

theorem transaction_write_add_read_frame (s : BLE_Value) (c : Nat) (d : Bytes) :
    (s.transaction_write_add c d).2.m_transactions_read = s.m_transactions_read := by
  cases e : s.m_transactions_write c <;>
    simp [BLE_Value.transaction_write_add, e]

theorem transaction_write_commit_read_frame (s : BLE_Value) (c : Nat) :
    (s.transaction_write_commit c).2.m_transactions_read = s.m_transactions_read := by
  cases e : s.m_transactions_write c <;>
    simp [BLE_Value.transaction_write_commit, e]

theorem transaction_write_abort_read_frame (s : BLE_Value) (c : Nat) :
    (s.transaction_write_abort c).m_transactions_read = s.m_transactions_read := by
  cases e : s.m_transactions_write c <;>
    simp [BLE_Value.transaction_write_abort, e]

theorem transaction_read_start_write_frame (s : BLE_Value) (c : Nat) :
    (s.transaction_read_start c).m_transactions_write = s.m_transactions_write := rfl

theorem transaction_read_advance_write_frame (s : BLE_Value) (c n : Nat) :
    (s.transaction_read_advance c n).2.m_transactions_write = s.m_transactions_write := by
  cases e : s.m_transactions_read c with
  | none => simp [BLE_Value.transaction_read_advance, e]
  | some t =>
    simp only [BLE_Value.transaction_read_advance, e]
    split <;> rfl

theorem transaction_read_abort_write_frame (s : BLE_Value) (c : Nat) :
    (s.transaction_read_abort c).m_transactions_write = s.m_transactions_write := by
  cases e : s.m_transactions_read c <;>
    simp [BLE_Value.transaction_read_abort, e]

/-- Characterization of `transaction_read_advance` on an open transaction whose
cursor is within the snapshot: the returned bytes, their count, and the updated
transaction entry. -/
theorem transaction_read_advance_some (s : BLE_Value) (c n : Nat) (t : TransactionRead)
    (h : s.m_transactions_read c = some t) (h1 : t.offset ≤ t.value.length)
    (h2 : t.value.length < SIZE_T_MOD) :
    (s.transaction_read_advance c n).1
        = (t.value.drop t.offset).take (min n (t.value.length - t.offset)) ∧
    (s.transaction_read_advance c n).2.m_transactions_read c
        = some ⟨t.value, t.offset + min n (t.value.length - t.offset)⟩ := by
  unfold BLE_Value.transaction_read_advance
  rw [h]
  simp only [size_t_sub_eq t.value.length t.offset h1 h2]
  by_cases hl : min n (t.value.length - t.offset) = 0
  · rw [if_pos hl]
    refine ⟨by rw [hl, List.take_zero], ?_⟩
    rw [hl, Nat.add_zero]
    exact h
  · rw [if_neg hl]
    refine ⟨rfl, ?_⟩
    dsimp only
    rw [mapInsert_self]
    have hle : min n (t.value.length - t.offset) ≤ t.value.length - t.offset :=
      Nat.min_le_right _ _
    have : (t.offset + min n (t.value.length - t.offset)) % SIZE_T_MOD
        = t.offset + min n (t.value.length - t.offset) :=
      Nat.mod_eq_of_lt (by omega)
    rw [this]

/-- The number of bytes returned by an in-bounds `transaction_read_advance`. -/
theorem transaction_read_advance_length (s : BLE_Value) (c n : Nat) (t : TransactionRead)
    (h : s.m_transactions_read c = some t) (h1 : t.offset ≤ t.value.length)
    (h2 : t.value.length < SIZE_T_MOD) :
    (s.transaction_read_advance c n).1.length = min n (t.value.length - t.offset) := by
  rw [(transaction_read_advance_some s c n t h h1 h2).1]
  simp only [List.length_take, List.length_drop]
  omega

/-- Invariant: every open read transaction's cursor is within its snapshot. -/
def ReadInv (s : BLE_Value) : Prop :=
  ∀ c t, s.m_transactions_read c = some t → t.offset ≤ t.value.length

theorem readInv_init : ReadInv BLE_Value.init := by
  intro c t h
  simp [BLE_Value.init] at h

theorem readInv_step (s : BLE_Value) (op : EngineOp) (h : ReadInv s) :
    ReadInv (s.step op) := by
  cases op with
  | writeStart c =>
    intro c' t' h'
    rw [BLE_Value.step, transaction_write_start_read_frame] at h'
    exact h c' t' h'
  | writeAdd c d =>
    intro c' t' h'
    rw [BLE_Value.step, transaction_write_add_read_frame] at h'
    exact h c' t' h'
  | writeCommit c =>
    intro c' t' h'
    rw [BLE_Value.step, transaction_write_commit_read_frame] at h'
    exact h c' t' h'
  | writeAbort c =>
    intro c' t' h'
    rw [BLE_Value.step, transaction_write_abort_read_frame] at h'
    exact h c' t' h'
  | writeOngoing c => exact h
  | readStart c =>
    intro c' t' h'
    simp only [BLE_Value.step, BLE_Value.transaction_read_start, mapInsert] at h'
    by_cases hc : c' = c
    · rw [if_pos hc] at h'
      cases h'
      exact Nat.zero_le _
    · rw [if_neg hc] at h'
      exact h c' t' h'
  | readAdvance c n =>
    intro c' t' h'
    simp only [BLE_Value.step] at h'
    cases e : s.m_transactions_read c with
    | none =>
      rw [BLE_Value.transaction_read_advance, e] at h'
      exact h c' t' h'
    | some t =>
      have ht := h c t e
      rw [BLE_Value.transaction_read_advance, e] at h'
      dsimp only at h'
      by_cases hl : min n ((SIZE_T_MOD + t.value.length - t.offset) % SIZE_T_MOD) = 0
      · rw [if_pos hl] at h'
        exact h c' t' h'
      · rw [if_neg hl] at h'
        simp only [mapInsert] at h'
        by_cases hc : c' = c
        · rw [if_pos hc] at h'
          cases h'
          have hle : min n ((SIZE_T_MOD + t.value.length - t.offset) % SIZE_T_MOD)
              ≤ t.value.length - t.offset :=
            le_trans (Nat.min_le_right _ _) (size_t_sub_le _ _ ht)
          show (t.offset + min n ((SIZE_T_MOD + t.value.length - t.offset) % SIZE_T_MOD))
              % SIZE_T_MOD ≤ t.value.length
          exact le_trans (Nat.mod_le _ _) (by omega)
        · rw [if_neg hc] at h'
          exact h c' t' h'
  | readAbort c =>
    intro c' t' h'
    simp only [BLE_Value.step] at h'
    cases e : s.m_transactions_read c with
    | none =>
      rw [BLE_Value.transaction_read_abort, e] at h'
      exact h c' t' h'
    | some t =>
      rw [BLE_Value.transaction_read_abort, e] at h'
      simp only [mapErase] at h'
      by_cases hc : c' = c
      · rw [if_pos hc] at h'
        cases h'
      · rw [if_neg hc] at h'
        exact h c' t' h'

theorem readInv_foldl (ops : List EngineOp) (s : BLE_Value) (h : ReadInv s) :
    ReadInv (ops.foldl BLE_Value.step s) := by
  induction ops generalizing s with
  | nil => exact h
  | cons op rest ih => exact ih (s.step op) (readInv_step s op h)

theorem readInv_run (ops : List EngineOp) : ReadInv (BLE_Value.run ops) :=
  readInv_foldl ops BLE_Value.init readInv_init

/-! ### Claim theorems -/

/-- C1: on any `BLE_Value` and connection `c`, the sequence
`transaction_write_start c; transaction_write_add c [0x01, 0x02];
transaction_write_add c [0x03]; transaction_write_commit c;
transaction_read_start c; transaction_read_advance c 10` returns exactly
the byte sequence `[0x01, 0x02, 0x03]`. -/
theorem claim_C1 (s : BLE_Value) (c : Nat) :
    ((((((s.transaction_write_start c).transaction_write_add c [1, 2]).2.transaction_write_add
        c [3]).2.transaction_write_commit c).2.transaction_read_start
        c).transaction_read_advance c 10).1 = [1, 2, 3] := by
  simp [BLE_Value.transaction_write_start, BLE_Value.transaction_write_add,
    BLE_Value.transaction_write_commit, BLE_Value.transaction_read_start,
    BLE_Value.transaction_read_advance, mapInsert, mapErase, SIZE_T_MOD]

/-- C2: advancing an open read transaction whose cursor is within its
snapshot returns exactly `min max_length remaining` bytes of the snapshot
starting at the cursor, and moves the cursor forward by exactly that count. -/
theorem claim_C2 (s : BLE_Value) (c n : Nat) (t : TransactionRead)
    (h : s.m_transactions_read c = some t) (h1 : t.offset ≤ t.value.length)
    (h2 : t.value.length < SIZE_T_MOD) :
    (s.transaction_read_advance c n).1
        = (t.value.drop t.offset).take (min n (t.value.length - t.offset)) ∧
    (s.transaction_read_advance c n).1.length = min n (t.value.length - t.offset) ∧
    (s.transaction_read_advance c n).2.m_transactions_read c
        = some ⟨t.value, t.offset + min n (t.value.length - t.offset)⟩ :=
  ⟨(transaction_read_advance_some s c n t h h1 h2).1,
   transaction_read_advance_length s c n t h h1 h2,
   (transaction_read_advance_some s c n t h h1 h2).2⟩

/-- A committed ten-byte value used to exercise read fragmentation. -/
def vten : Bytes := [0, 1, 2, 3, 4, 5, 6, 7, 8, 9]

/-- The engine state with `vten` committed and a read transaction open for
connection `0`. -/
def sten : BLE_Value :=
  BLE_Value.run [EngineOp.writeStart 0, EngineOp.writeAdd 0 vten,
    EngineOp.writeCommit 0, EngineOp.readStart 0]

theorem claim_C2_witness :
    sten.m_transactions_read 0 = some ⟨vten, 0⟩ ∧
    (sten.transaction_read_advance 0 4).1 = [0, 1, 2, 3] ∧
    ((sten.transaction_read_advance 0 4).2.transaction_read_advance 0 4).1 = [4, 5, 6, 7] ∧
    (((sten.transaction_read_advance 0 4).2.transaction_read_advance
        0 4).2.transaction_read_advance 0 4).1 = [8, 9] := by
  have h1 := claim_C2 sten 0 4 ⟨vten, 0⟩ (by decide) (by decide) (by decide)
  have h2 := claim_C2 (sten.transaction_read_advance 0 4).2 0 4 ⟨vten, 4⟩
    (by decide) (by decide) (by decide)
  have h3 := claim_C2 ((sten.transaction_read_advance 0 4).2.transaction_read_advance 0 4).2
    0 4 ⟨vten, 8⟩ (by decide) (by decide) (by decide)
  exact ⟨by decide, h1.1.trans (by decide), h2.1.trans (by decide), h3.1.trans (by decide)⟩

/-- C3: starting a write transaction, adding `[0xFF]` and aborting it leaves
the subsequent commit returning `false` and the committed value unchanged. -/
theorem claim_C3 (s : BLE_Value) (c : Nat) :
    ((((s.transaction_write_start c).transaction_write_add
        c [255]).2.transaction_write_abort c).transaction_write_commit c).1 = false ∧
    ((((s.transaction_write_start c).transaction_write_add
        c [255]).2.transaction_write_abort c).transaction_write_commit c).2.m_value
      = s.m_value := by
  simp [BLE_Value.transaction_write_start, BLE_Value.transaction_write_add,
    BLE_Value.transaction_write_abort, BLE_Value.transaction_write_commit,
    mapInsert, mapErase]

/-- C4: with no open transaction of the corresponding kind,
`transaction_write_add` and `transaction_write_commit` return `false`,
`transaction_read_advance` returns the empty sequence, and the abort
operations are no-ops; the whole state is returned unchanged in every case. -/
theorem claim_C4 (s : BLE_Value) (c : Nat) (data : Bytes) (n : Nat) :
    (s.m_transactions_write c = none →
      s.transaction_write_add c data = (false, s) ∧
      s.transaction_write_commit c = (false, s) ∧
      s.transaction_write_abort c = s) ∧
    (s.m_transactions_read c = none →
      s.transaction_read_advance c n = ([], s) ∧
      s.transaction_read_abort c = s) := by
  constructor
  · intro h
    exact ⟨by simp [BLE_Value.transaction_write_add, h],
      by simp [BLE_Value.transaction_write_commit, h],
      by simp [BLE_Value.transaction_write_abort, h]⟩
  · intro h
    exact ⟨by simp [BLE_Value.transaction_read_advance, h],
      by simp [BLE_Value.transaction_read_abort, h]⟩

theorem claim_C4_witness :
    BLE_Value.init.m_transactions_write 0 = none ∧
    BLE_Value.init.m_transactions_read 0 = none ∧
    BLE_Value.init.transaction_write_add 0 [1] = (false, BLE_Value.init) ∧
    BLE_Value.init.transaction_read_advance 0 5 = ([], BLE_Value.init) := by
  have h := claim_C4 BLE_Value.init 0 [1] 5
  exact ⟨rfl, rfl, (h.1 rfl).1, (h.2 rfl).1⟩

/-- The first component of `transaction_read_advance` depends only on the
read transaction entry of the queried connection. -/
theorem transaction_read_advance_fst_congr (s s' : BLE_Value) (a n : Nat)
    (h : s'.m_transactions_read a = s.m_transactions_read a) :
    (s'.transaction_read_advance a n).1 = (s.transaction_read_advance a n).1 := by
  cases e : s.m_transactions_read a with
  | none =>
    simp [BLE_Value.transaction_read_advance, e, h.trans e]
  | some t =>
    have e' : s'.m_transactions_read a = some t := h.trans e
    rw [BLE_Value.transaction_read_advance, BLE_Value.transaction_read_advance, e, e']
    dsimp only
    by_cases hl : min n ((SIZE_T_MOD + t.value.length - t.offset) % SIZE_T_MOD) = 0
    · rw [if_pos hl, if_pos hl]
    · rw [if_neg hl, if_neg hl]

/-- C5: a commit by connection `b` replaces the attribute value but leaves the
open read transaction (snapshot and cursor) of a distinct connection `a`
untouched, so `a`'s advance calls keep returning bytes of its snapshot. -/
theorem claim_C5 (s : BLE_Value) (a b : Nat) (t : TransactionRead) (buf : Bytes)
    (hab : a ≠ b) (ha : s.m_transactions_read a = some t)
    (hb : s.m_transactions_write b = some buf) :
    (s.transaction_write_commit b).1 = true ∧
    (s.transaction_write_commit b).2.m_value = buf ∧
    (s.transaction_write_commit b).2.m_transactions_read a = some t ∧
    ∀ n, ((s.transaction_write_commit b).2.transaction_read_advance a n).1
        = (s.transaction_read_advance a n).1 := by
  refine ⟨?_, ?_, ?_, ?_⟩
  · simp [BLE_Value.transaction_write_commit, hb]
  · simp [BLE_Value.transaction_write_commit, hb]
  · rw [transaction_write_commit_read_frame]
    exact ha
  · intro n
    exact transaction_read_advance_fst_congr s (s.transaction_write_commit b).2 a n
      (by rw [transaction_write_commit_read_frame])

/-- An engine state with a read transaction open for connection `0` and a
write buffer open for connection `1`. -/
def srw : BLE_Value :=
  BLE_Value.run [EngineOp.writeStart 1, EngineOp.writeAdd 1 [7], EngineOp.readStart 0]

theorem claim_C5_witness :
    srw.m_transactions_read 0 = some ⟨[], 0⟩ ∧
    srw.m_transactions_write 1 = some [7] ∧
    (srw.transaction_write_commit 1).1 = true ∧
    (srw.transaction_write_commit 1).2.m_value = [7] ∧
    (srw.transaction_write_commit 1).2.m_transactions_read 0 = some ⟨[], 0⟩ := by
  have h := claim_C5 srw 0 1 ⟨[], 0⟩ [7] (by decide) (by decide) (by decide)
  exact ⟨by decide, by decide, h.1, h.2.1, h.2.2.1⟩

/-- C6: every engine operation invoked with connection `b` leaves the write
buffer and the read transaction of any distinct connection `a` unchanged. -/
theorem claim_C6 (s : BLE_Value) (a b : Nat) (op : EngineOp) (hab : a ≠ b)
    (hop : op.conn = b) :
    (s.step op).m_transactions_write a = s.m_transactions_write a ∧
    (s.step op).m_transactions_read a = s.m_transactions_read a := by
  subst hop
  cases op with
  | writeStart c => exact ⟨mapInsert_other _ _ _ _ hab, rfl⟩
  | writeAdd c d =>
    cases e : s.m_transactions_write c with
    | none => simp [BLE_Value.step, BLE_Value.transaction_write_add, e]
    | some buf =>
      rw [BLE_Value.step, BLE_Value.transaction_write_add, e]
      exact ⟨mapInsert_other _ _ _ _ hab, rfl⟩
  | writeCommit c =>
    cases e : s.m_transactions_write c with
    | none => simp [BLE_Value.step, BLE_Value.transaction_write_commit, e]
    | some buf =>
      rw [BLE_Value.step, BLE_Value.transaction_write_commit, e]
      exact ⟨mapErase_other _ _ _ hab, rfl⟩
  | writeAbort c =>
    cases e : s.m_transactions_write c with
    | none => simp [BLE_Value.step, BLE_Value.transaction_write_abort, e]
    | some buf =>
      rw [BLE_Value.step, BLE_Value.transaction_write_abort, e]
      exact ⟨mapErase_other _ _ _ hab, rfl⟩
  | writeOngoing c => exact ⟨rfl, rfl⟩
  | readStart c => exact ⟨rfl, mapInsert_other _ _ _ _ hab⟩
  | readAdvance c n =>
    cases e : s.m_transactions_read c with
    | none => simp [BLE_Value.step, BLE_Value.transaction_read_advance, e]
    | some t =>
      rw [BLE_Value.step, BLE_Value.transaction_read_advance, e]
      dsimp only
      by_cases hl : min n ((SIZE_T_MOD + t.value.length - t.offset) % SIZE_T_MOD) = 0
      · rw [if_pos hl]
        exact ⟨rfl, rfl⟩
      · rw [if_neg hl]
        exact ⟨rfl, mapInsert_other _ _ _ _ hab⟩
  | readAbort c =>
    cases e : s.m_transactions_read c with
    | none => simp [BLE_Value.step, BLE_Value.transaction_read_abort, e]
    | some t =>
      rw [BLE_Value.step, BLE_Value.transaction_read_abort, e]
      exact ⟨rfl, mapErase_other _ _ _ hab⟩

theorem claim_C6_witness :
    (BLE_Value.init.step (EngineOp.writeStart 1)).m_transactions_write 0
        = BLE_Value.init.m_transactions_write 0 ∧
    (BLE_Value.init.step (EngineOp.writeStart 1)).m_transactions_read 0
        = BLE_Value.init.m_transactions_read 0 :=
  claim_C6 BLE_Value.init 0 1 (EngineOp.writeStart 1) (by decide) rfl

/-- An engine state with the one-byte value `[0xAB]` committed and a read
transaction open for connection `0`. -/
def sone : BLE_Value :=
  BLE_Value.run [EngineOp.writeStart 0, EngineOp.writeAdd 0 [171],
    EngineOp.writeCommit 0, EngineOp.readStart 0]

/-- C7 counterexample: an advance that consumes the final byte of the
snapshot does NOT close the read transaction; the entry stays in the map
with its cursor at the snapshot end. -/
theorem claim_C7_counterexample :
    (sone.transaction_read_advance 0 1).1 = [171] ∧
    (sone.transaction_read_advance 0 1).2.m_transactions_read 0 = some ⟨[171], 1⟩ ∧
    (sone.transaction_read_advance 0 1).2.m_transactions_read 0 ≠ none :=
  ⟨by decide, by decide, by decide⟩

/-- C7 (amended): an advance that consumes the final byte of the snapshot
leaves the read transaction entry in place with its cursor equal to the
snapshot size, and every subsequent advance for that connection returns the
empty byte sequence (the entry is only removed by abort, or replaced by a
new read start). -/
theorem claim_C7 (s : BLE_Value) (c n : Nat) (t : TransactionRead)
    (h : s.m_transactions_read c = some t) (h1 : t.offset ≤ t.value.length)
    (h2 : t.value.length < SIZE_T_MOD) (h3 : t.value.length - t.offset ≤ n) :
    (s.transaction_read_advance c n).1 = t.value.drop t.offset ∧
    (s.transaction_read_advance c n).2.m_transactions_read c
        = some ⟨t.value, t.value.length⟩ ∧
    ∀ m, (((s.transaction_read_advance c n).2).transaction_read_advance c m).1 = [] := by
  have hmin : min n (t.value.length - t.offset) = t.value.length - t.offset :=
    min_eq_right h3
  have hsome := transaction_read_advance_some s c n t h h1 h2
  have hdone : (s.transaction_read_advance c n).2.m_transactions_read c
      = some ⟨t.value, t.value.length⟩ := by
    rw [hsome.2, hmin]
    have hoff : t.offset + (t.value.length - t.offset) = t.value.length := by omega
    rw [hoff]
  refine ⟨?_, hdone, ?_⟩
  · rw [hsome.1, hmin]
    have hlen : t.value.length - t.offset = (t.value.drop t.offset).length :=
      (List.length_drop _ _).symm
    rw [hlen, List.take_length]
  · intro m
    have exhausted : ∀ (s2 : BLE_Value),
        s2.m_transactions_read c = some ⟨t.value, t.value.length⟩ →
        (s2.transaction_read_advance c m).1 = [] := by
      intro s2 hs2
      rw [BLE_Value.transaction_read_advance, hs2]
      dsimp only
      rw [Nat.add_sub_cancel, Nat.mod_self, Nat.min_zero, if_pos rfl]
    exact exhausted _ hdone

theorem claim_C7_witness :
    sone.m_transactions_read 0 = some ⟨[171], 0⟩ ∧
    (sone.transaction_read_advance 0 1).1 = [171] ∧
    ((sone.transaction_read_advance 0 1).2.transaction_read_advance 0 5).1 = [] := by
  have h := claim_C7 sone 0 1 ⟨[171], 0⟩ (by decide) (by decide) (by decide) (by decide)
  exact ⟨by decide, h.1.trans (by decide), h.2.2 5⟩

/-- C8: modelled from the spec — a `wait` issued while a `PendingWait` for the
same (key, operation) is outstanding fails fast: it returns the empty result
immediately and leaves the correlator, including the first registration,
completely unchanged. -/
theorem claim_C8 (m : Notification_Manager) (k oper : Nat)
    (action : Notification_Manager → Bool × Notification_Manager)
    (h : (m.registry k oper).isSome = true) :
    m.wait k oper action = (none, m) := by
  rw [Notification_Manager.wait, if_pos h]

/-- A correlator with one pending, undelivered wait registered for key `0`,
operation tag `0`. -/
def nm1 : Notification_Manager :=
  ⟨fun k o => if k = 0 ∧ o = 0 then some none else none⟩

theorem claim_C8_witness :
    (nm1.registry 0 0).isSome = true ∧
    nm1.wait 0 0 (fun r => (true, r)) = (none, nm1) :=
  ⟨by decide, claim_C8 nm1 0 0 (fun r => (true, r)) (by decide)⟩

/-- C9: modelled from the spec — `wait` registers the `PendingWait` before
running `action`; hence an `action` that synchronously notifies success for
the same (key, operation) makes the registering `wait` return `true`. -/
theorem claim_C9 (m : Notification_Manager) (k oper : Nat)
    (h : m.registry k oper = none) :
    (m.wait k oper (fun r => (true, r.notify k oper true))).1 = some true := by
  simp [Notification_Manager.wait, Notification_Manager.notify, h]

theorem claim_C9_witness :
    Notification_Manager.empty.registry 0 0 = none ∧
    (Notification_Manager.empty.wait 0 0
        (fun r => (true, r.notify 0 0 true))).1 = some true :=
  ⟨rfl, claim_C9 Notification_Manager.empty 0 0 rfl⟩

/-- C10: in every state reachable by engine operations, every open read
transaction's cursor is at most its snapshot size (so the remaining-length
subtraction in `transaction_read_advance` cannot underflow), and every
advance returns a range of at most the remaining length taken from the
snapshot at the cursor. -/
theorem claim_C10 (ops : List EngineOp) (c : Nat) (t : TransactionRead)
    (h : (BLE_Value.run ops).m_transactions_read c = some t) :
    t.offset ≤ t.value.length ∧
    ∀ n, ∃ k, k ≤ t.value.length - t.offset ∧
      ((BLE_Value.run ops).transaction_read_advance c n).1
          = (t.value.drop t.offset).take k := by
  have hinv := readInv_run ops c t h
  refine ⟨hinv, ?_⟩
  intro n
  refine ⟨min n ((SIZE_T_MOD + t.value.length - t.offset) % SIZE_T_MOD), ?_, ?_⟩
  · exact le_trans (Nat.min_le_right _ _) (size_t_sub_le _ _ hinv)
  · rw [BLE_Value.transaction_read_advance, h]
    dsimp only
    by_cases hl : min n ((SIZE_T_MOD + t.value.length - t.offset) % SIZE_T_MOD) = 0
    · rw [if_pos hl, hl, List.take_zero]
    · rw [if_neg hl]

theorem claim_C10_witness :
    (BLE_Value.run [EngineOp.writeStart 0, EngineOp.writeAdd 0 [5],
        EngineOp.writeCommit 0, EngineOp.readStart 0]).m_transactions_read 0
      = some ⟨[5], 0⟩ ∧
    (⟨[5], 0⟩ : TransactionRead).offset ≤ (⟨[5], 0⟩ : TransactionRead).value.length := by
  have h := claim_C10 [EngineOp.writeStart 0, EngineOp.writeAdd 0 [5],
    EngineOp.writeCommit 0, EngineOp.readStart 0] 0 ⟨[5], 0⟩ (by decide)
  exact ⟨by decide, h.1⟩

end BLERedux
